import Mathlib

/-!
Verification of the streaming transport and option-builder layer of the
docker-api-rs client library.

The development shallowly embeds the Rust sources:

* `Docker::events` (src/api/system/mod.rs): the structured stream decoder,
  built from `futures_codec::FramedRead` with `futures_codec::LinesCodec`
  composed with `TryStreamExt::and_then` applying the per-line record
  decoder.  The vendored `LinesCodec` yields each line *including* its
  terminator, provides no `decode_eof` override (so an unterminated
  trailing buffer is dropped at end of stream), and `and_then` passes
  error items through without terminating the stream.  Those library
  semantics are embedded here together with the repository's composition.
* `tty::decode` (crate::conn::tty): the frame demultiplexer.  Its source
  file is not part of the provided sources, so it is modelled from the
  specification's wire-format and algorithm description.
* `Exec::create_and_start` (src/api/exec.rs) and `Images::build`
  (src/api/image/mod.rs): the streaming operation façade.
* `ExecResizeOptsBuilder`, `ExecContainerOptsBuilder` (src/api/exec.rs)
  and `ServiceOptsBuilder` (src/api/service/opts.rs): option builders.

Bytes are modelled as `Nat` (values below 256 where it matters), Rust
`HashMap`s as association lists with replace-on-insert, and fallible Rust
functions as `Except`-valued Lean functions.
-/

namespace DockerApi


/-- Protocol-level error kinds of the streaming layer (spec section 7). -/
inductive PErr
  | truncatedFrame
  | unknownFrameKind
  | malformedRecord
deriving DecidableEq

/-! ### Structured stream decoder (`Docker::events`)

`Docker::events` wraps the response byte stream in
`FramedRead::new(reader, LinesCodec)` and applies
`serde_json::from_str` to each produced line via `and_then`.

`splitLines bs` mirrors the `LinesCodec` loop driven by `FramedRead`:
it returns the list of terminated lines (each including its final `\n`,
byte 10, exactly as `LinesCodec` yields them) together with the
unterminated trailing buffer remaining at end of stream. -/

def splitLines : List Nat → List (List Nat) × List Nat
  | [] => ([], [])
  | b :: rest =>
    if b = 10 then
      ((10 :: []) :: (splitLines rest).1, (splitLines rest).2)
    else
      match splitLines rest with
      | (l :: ls, t) => ((b :: l) :: ls, t)
      | ([], t) => ([], b :: t)

/-- One item of the `events` stream for one line: `Ok` when the record
decoder `dec` succeeds on the line, a malformed-record error otherwise
(the code surfaces `serde_json` failures as its error type; the spec
calls this `ProtocolError(MalformedRecord)`). -/
def lineToItem {T : Type} (dec : List Nat → Option T) (l : List Nat) : Except PErr T :=
  match dec l with
  | some t => .ok t
  | none => .error .malformedRecord

/-- Item sequence produced by the `Docker::events` pipeline on a chunked
input byte stream.  `into_async_read` erases chunk boundaries, the
codec buffers across reads, every terminated line is passed to the
record decoder (`and_then` does not stop the stream at an error item),
and the unterminated trailing buffer is dropped at end of stream
(`LinesCodec` has no `decode_eof` override). -/
def eventsItems {T : Type} (dec : List Nat → Option T) (chunks : List (List Nat)) :
    List (Except PErr T) :=
  (splitLines chunks.flatten).1.map (lineToItem dec)

instance {ε α : Type} [DecidableEq ε] [DecidableEq α] : DecidableEq (Except ε α) := fun x y =>
  match x, y with
  | .error a, .error b =>
    if h : a = b then .isTrue (congrArg Except.error h)
    else .isFalse (fun hh => h (Except.error.inj hh))
  | .ok a, .ok b =>
    if h : a = b then .isTrue (congrArg Except.ok h)
    else .isFalse (fun hh => h (Except.ok.inj hh))
  | .error _, .ok _ => .isFalse (fun hh => Except.noConfusion hh)
  | .ok _, .error _ => .isFalse (fun hh => Except.noConfusion hh)

/-- Newline-terminated join of serialized records, as produced by a
server emitting one record per line. -/
def nlJoin (ls : List (List Nat)) : List Nat := (ls.map (· ++ [10])).flatten

/-- Sample record decoder used in concrete instances: accepts exactly the
line `A\n` as the record `0`. -/
def decA : List Nat → Option Nat := fun l => if l = [65, 10] then some 0 else none

/-- Sample record decoder accepting the unterminated buffer `A` only. -/
def decB : List Nat → Option Nat := fun l => if l = [65] then some 0 else none

/-- Sample record encoder for the round-trip instance: the record `n` is
`n` copies of byte 65. -/
def enc0 : Nat → List Nat := fun n => List.replicate n 65

/-- Sample record decoder matching `enc0` on newline-terminated lines. -/
def dec0 : List Nat → Option Nat := fun l =>
  if l.getLast? = some 10 ∧ l.dropLast.all (· = 65) then some l.dropLast.length else none

/-! ### Frame demultiplexer (`tty::decode`)

Modelled from the spec: the source of `crate::conn::tty` is not among
the provided files (src/api/exec.rs only calls `tty::decode`), so the
demultiplexer is modelled from the specification's wire format and
algorithm (spec sections 4.2 and 8): an 8-byte header — byte 0 the
stream tag (0/1/2), bytes 1–3 reserved, bytes 4–7 the payload length as
a big-endian 32-bit integer — followed by exactly that many payload
bytes; a carry-over buffer and a two-state machine are maintained
across chunks, an unrecognized tag fails the session, and bytes
buffered at end of stream fail the session with a truncated-frame
error. -/

/-- Origin stream of one demultiplexed frame. -/
inductive StreamKind
  | stdin
  | stdout
  | stderr
deriving DecidableEq

/-- One demultiplexed unit of process output. -/
structure Frame where
  kind : StreamKind
  payload : List Nat
deriving DecidableEq

/-- The demultiplexer's two-state machine. -/
inductive DemuxMode
  | awaitingHeader
  | awaitingPayload (kind : StreamKind) (len : Nat)
deriving DecidableEq

/-- Result of greedily running the demultiplexer over buffered bytes:
the frames emitted, the state and carry-over buffer reached, and
whether an unrecognized tag byte aborted the session. -/
structure DemuxRun where
  frames : List Frame
  mode : DemuxMode
  buf : List Nat
  fatal : Bool
deriving DecidableEq

/-- Stream-type tag byte of the wire format. -/
def tagKind : Nat → Option StreamKind
  | 0 => some .stdin
  | 1 => some .stdout
  | 2 => some .stderr
  | _ => none

/-- Tag byte written for a stream kind. -/
def tagByte : StreamKind → Nat
  | .stdin => 0
  | .stdout => 1
  | .stderr => 2

/-- Big-endian value of a byte list (applied to the 4 length bytes). -/
def be32 (bs : List Nat) : Nat := bs.foldl (fun a b => a * 256 + b) 0

/-- Fuel-indexed greedy run of the state machine over a buffer: consume
a full header (reaching `awaitingPayload`) or a full payload (emitting
a `Frame` and returning to `awaitingHeader`) as long as enough bytes
are buffered; otherwise stop, retaining the remaining bytes.  The fuel
only bounds the recursion; `runBuf` below always supplies enough. -/
def runBufF : Nat → DemuxMode → List Nat → DemuxRun
  | 0, mode, buf => ⟨[], mode, buf, false⟩
  | fuel + 1, .awaitingHeader, buf =>
    if 8 ≤ buf.length then
      match tagKind (buf.headD 0) with
      | none => ⟨[], .awaitingHeader, buf, true⟩
      | some k => runBufF fuel (.awaitingPayload k (be32 ((buf.drop 4).take 4))) (buf.drop 8)
    else ⟨[], .awaitingHeader, buf, false⟩
  | fuel + 1, .awaitingPayload k len, buf =>
    if len ≤ buf.length then
      let r := runBufF fuel .awaitingHeader (buf.drop len)
      ⟨⟨k, buf.take len⟩ :: r.frames, r.mode, r.buf, r.fatal⟩
    else ⟨[], .awaitingPayload k len, buf, false⟩

/-- Fuel needed by `runBufF` to run a buffer to a stuck state. -/
def needFuel : DemuxMode → List Nat → Nat
  | .awaitingHeader, buf => buf.length + 1
  | .awaitingPayload _ _, buf => buf.length + 2

/-- Greedy run of the demultiplexer state machine over buffered bytes. -/
def runBuf (mode : DemuxMode) (buf : List Nat) : DemuxRun :=
  runBufF (buf.length + 2) mode buf

/-- Continuation of a stuck (or failed) run when more bytes arrive. -/
def glueRun (r : DemuxRun) (extra : List Nat) : DemuxRun :=
  if r.fatal then ⟨r.frames, r.mode, r.buf ++ extra, true⟩
  else
    let r2 := runBuf r.mode (r.buf ++ extra)
    ⟨r.frames ++ r2.frames, r2.mode, r2.buf, r2.fatal⟩

/-- Feeding one chunk to a decode session: append the chunk to the
carry-over buffer and run the state machine greedily (spec 4.2); after
a fatal error the session only accumulates, it decodes nothing more. -/
def feedChunk (s : DemuxRun) (chunk : List Nat) : DemuxRun := glueRun s chunk

/-- Fresh decode session. -/
def initDemux : DemuxRun := ⟨[], .awaitingHeader, [], false⟩

/-- End-of-stream outcome of a session (spec 4.2 end-of-stream rules):
an unrecognized tag already failed the session; otherwise ending in
`awaitingHeader` with an empty buffer is success and any buffered bytes
are a truncated frame. -/
def finalizeRun (r : DemuxRun) : List Frame × Option PErr :=
  if r.fatal then (r.frames, some .unknownFrameKind)
  else
    match r.mode, r.buf with
    | .awaitingHeader, [] => (r.frames, none)
    | _, _ => (r.frames, some .truncatedFrame)

/-- The frame demultiplexer over a chunked byte stream: frames emitted
and the terminal error, if any. -/
def demuxChunks (chunks : List (List Nat)) : List Frame × Option PErr :=
  finalizeRun (chunks.foldl feedChunk initDemux)

/-- The demultiplexer on an unchunked byte sequence. -/
def demuxBytes (bs : List Nat) : List Frame × Option PErr :=
  finalizeRun (runBuf .awaitingHeader bs)

/-! Wire-format encoder (spec 4.2), used to state the round-trip and
truncation properties. -/

/-- The 4 length bytes: payload length as big-endian 32-bit integer. -/
def encLen (n : Nat) : List Nat :=
  [n / 16777216 % 256, n / 65536 % 256, n / 256 % 256, n % 256]

/-- An 8-byte frame header: tag byte, 3 reserved zero bytes, length. -/
def encHeader (k : StreamKind) (len : Nat) : List Nat :=
  tagByte k :: 0 :: 0 :: 0 :: encLen len

/-- Wire encoding of one frame. -/
def encodeFrame (f : Frame) : List Nat := encHeader f.kind f.payload.length ++ f.payload

/-- Wire encoding of a frame sequence. -/
def encodeFrames (fs : List Frame) : List Nat := (fs.map encodeFrame).flatten

/-! ### Option builders

Rust `HashMap<&'static str, V>` fields are modelled as association
lists with replace-on-insert (`insertKV`) and key lookup (`alookup`);
a serialized JSON object body is represented by its key-value map. -/

/-- Insert as `HashMap::insert` does: replace the value of an existing key in place,
otherwise add the pair. -/
def insertKV {A : Type} : List (String × A) → String → A → List (String × A)
  | [], k, v => [(k, v)]
  | (k', v') :: rest, k, v =>
    if k' = k then (k, v) :: rest else (k', v') :: insertKV rest k v

/-- Key lookup in an association list. -/
def alookup {A : Type} : List (String × A) → String → Option A
  | [], _ => none
  | (k', v) :: rest, k => if k' = k then some v else alookup rest k

/-! ### Builder `ExecResizeOptsBuilder` (src/api/exec.rs)

Both `height` and `width` insert their `u64` value under the JSON key
`"Name"` (this is what the source does).  The serialized body of
`ExecResizeOpts` is the JSON object of `params`, represented here as
the key-value map itself. -/

/-- Options for resizing an exec session's TTY: the JSON body map. -/
structure ExecResizeOpts where
  params : List (String × Nat)
deriving DecidableEq

/-- Builder for `ExecResizeOpts`. -/
structure ExecResizeOptsBuilder where
  params : List (String × Nat)
deriving DecidableEq

def ExecResizeOptsBuilder.new : ExecResizeOptsBuilder := ⟨[]⟩

def ExecResizeOptsBuilder.height (b : ExecResizeOptsBuilder) (height : Nat) :
    ExecResizeOptsBuilder :=
  ⟨insertKV b.params "Name" height⟩

def ExecResizeOptsBuilder.width (b : ExecResizeOptsBuilder) (width : Nat) :
    ExecResizeOptsBuilder :=
  ⟨insertKV b.params "Name" width⟩

def ExecResizeOptsBuilder.build (b : ExecResizeOptsBuilder) : ExecResizeOpts :=
  ⟨b.params⟩

/-- The serialized JSON body of the options, as its key-value map. -/
def ExecResizeOpts.serialize (o : ExecResizeOpts) : List (String × Nat) := o.params

/-- One builder call of the resize-options API. -/
inductive ResizeOp
  | height (n : Nat)
  | width (n : Nat)
deriving DecidableEq

def ExecResizeOptsBuilder.apply (b : ExecResizeOptsBuilder) : ResizeOp → ExecResizeOptsBuilder
  | .height n => b.height n
  | .width n => b.width n

/-- The builder reached from `new` by a sequence of API calls. -/
def runResizeOps (ops : List ResizeOp) : ExecResizeOptsBuilder :=
  ops.foldl ExecResizeOptsBuilder.apply ExecResizeOptsBuilder.new

/-! ### Builder `ExecContainerOptsBuilder` (src/api/exec.rs)

Three maps back the builder: list-valued `params` (`Cmd`, `Env`,
extended element by element through `entry(..).or_insert_with(Vec::new)
.push(..)`), string-valued `params_str` and bool-valued `params_bool`
(both plain `insert`).  `serialize` builds one JSON object from the
three maps; the object is represented by its key-value map. -/

/-- A JSON value appearing in the exec-create body. -/
inductive JVal
  | arr (xs : List String)
  | str (s : String)
  | bool (b : Bool)
deriving DecidableEq

/-- Push as `entry(k).or_insert_with(Vec::new).push(x)` does: append `x` to the list
at `k`, creating the entry if needed. -/
def pushParam (m : List (String × List String)) (k : String) (x : String) :
    List (String × List String) :=
  match m with
  | [] => [(k, [x])]
  | (k', v) :: rest =>
    if k' = k then (k', v ++ [x]) :: rest else (k', v) :: pushParam rest k x

/-- Exec-create options (the three backing maps, cloned by `build`). -/
structure ExecContainerOpts where
  params : List (String × List String)
  params_str : List (String × String)
  params_bool : List (String × Bool)
deriving DecidableEq

/-- Builder for `ExecContainerOpts`. -/
structure ExecContainerOptsBuilder where
  params : List (String × List String)
  params_str : List (String × String)
  params_bool : List (String × Bool)
deriving DecidableEq

namespace ExecContainerOptsBuilder

def default : ExecContainerOptsBuilder := ⟨[], [], []⟩

def cmd (b : ExecContainerOptsBuilder) (cmds : List String) : ExecContainerOptsBuilder :=
  { b with params := cmds.foldl (fun m c => pushParam m "Cmd" c) b.params }

def env (b : ExecContainerOptsBuilder) (envs : List String) : ExecContainerOptsBuilder :=
  { b with params := envs.foldl (fun m e => pushParam m "Env" e) b.params }

def attach_stdout (b : ExecContainerOptsBuilder) (stdout : Bool) : ExecContainerOptsBuilder :=
  { b with params_bool := insertKV b.params_bool "AttachStdout" stdout }

def attach_stderr (b : ExecContainerOptsBuilder) (stderr : Bool) : ExecContainerOptsBuilder :=
  { b with params_bool := insertKV b.params_bool "AttachStderr" stderr }

def detach_keys (b : ExecContainerOptsBuilder) (format : String) : ExecContainerOptsBuilder :=
  { b with params_str := insertKV b.params_str "DetachKeys" format }

def tty (b : ExecContainerOptsBuilder) (allocate : Bool) : ExecContainerOptsBuilder :=
  { b with params_bool := insertKV b.params_bool "Tty" allocate }

def privileged (b : ExecContainerOptsBuilder) (privileged : Bool) : ExecContainerOptsBuilder :=
  { b with params_bool := insertKV b.params_bool "Privileged" privileged }

def user (b : ExecContainerOptsBuilder) (user : String) : ExecContainerOptsBuilder :=
  { b with params_str := insertKV b.params_str "User" user }

def working_dir (b : ExecContainerOptsBuilder) (working_dir : String) : ExecContainerOptsBuilder :=
  { b with params_str := insertKV b.params_str "WorkingDir" working_dir }

def build (b : ExecContainerOptsBuilder) : ExecContainerOpts :=
  ⟨b.params, b.params_str, b.params_bool⟩

end ExecContainerOptsBuilder

/-- Serialization `ExecContainerOpts::serialize`: insert the three maps into one JSON
object (body), later inserts overwriting earlier ones on a key clash,
exactly as repeated `Map::insert` does in the source. -/
def ExecContainerOpts.serialize (o : ExecContainerOpts) : List (String × JVal) :=
  let m1 := o.params.foldl (fun acc kv => insertKV acc kv.1 (JVal.arr kv.2)) []
  let m2 := o.params_str.foldl (fun acc kv => insertKV acc kv.1 (JVal.str kv.2)) m1
  o.params_bool.foldl (fun acc kv => insertKV acc kv.1 (JVal.bool kv.2)) m2

/-! ### Builder `ServiceOptsBuilder` (src/api/service/opts.rs)

The builder stores `Result<Value>` for every field
(`to_value_result(..)` for the serde-serialized setters, `Ok(json!(..))`
for the infallible ones) and `build()` unwraps them with `?`, so every
setter succeeds and serialization errors surface only at `build()`.
The serde value type `Value`, the error type and the auth payload are
abstract parameters (`V`, `E`, `A`); a setter taking a serializable
argument is modelled as taking the `Except`-valued outcome of
`to_value_result` on that argument. -/

/-- Built service options: auth plus serialized params. -/
structure ServiceOpts (E V A : Type) where
  auth : Option A
  params : List (String × V)

/-- Builder: auth plus stored per-field serialization outcomes. -/
structure ServiceOptsBuilder (E V A : Type) where
  auth : Option A
  params : List (String × Except E V)

/-- Outcome of `serde_json::to_value`, as stored by the setters (`to_value_result`). -/
def to_value_result {E V T : Type} (ser : T → Except E V) (value : T) : Except E V :=
  ser value

namespace ServiceOptsBuilder

def default {E V A : Type} : ServiceOptsBuilder E V A := ⟨none, []⟩

def name {E V A : Type} (b : ServiceOptsBuilder E V A) (n : V) : ServiceOptsBuilder E V A :=
  { b with params := insertKV b.params "Name" (.ok n) }

def labels {E V A : Type} (b : ServiceOptsBuilder E V A) (ls : V) : ServiceOptsBuilder E V A :=
  { b with params := insertKV b.params "Labels" (.ok ls) }

def task_template {E V A : Type} (b : ServiceOptsBuilder E V A) (r : Except E V) :
    ServiceOptsBuilder E V A :=
  { b with params := insertKV b.params "TaskTemplate" r }

def mode {E V A : Type} (b : ServiceOptsBuilder E V A) (r : Except E V) :
    ServiceOptsBuilder E V A :=
  { b with params := insertKV b.params "Mode" r }

def update_config {E V A : Type} (b : ServiceOptsBuilder E V A) (r : Except E V) :
    ServiceOptsBuilder E V A :=
  { b with params := insertKV b.params "UpdateConfig" r }

def rollback_config {E V A : Type} (b : ServiceOptsBuilder E V A) (r : Except E V) :
    ServiceOptsBuilder E V A :=
  { b with params := insertKV b.params "RollbackConfig" r }

def networks {E V A : Type} (b : ServiceOptsBuilder E V A) (r : Except E V) :
    ServiceOptsBuilder E V A :=
  { b with params := insertKV b.params "Networks" r }

def endpoint_spec {E V A : Type} (b : ServiceOptsBuilder E V A) (r : Except E V) :
    ServiceOptsBuilder E V A :=
  { b with params := insertKV b.params "EndpointSpec" r }

def auth_set {E V A : Type} (b : ServiceOptsBuilder E V A) (a : A) :
    ServiceOptsBuilder E V A :=
  { b with auth := some a }

end ServiceOptsBuilder

/-- The `for (k, v) in params { new_params.insert(k, v?) }` loop of
`build()`: collect the stored values, aborting at the first error. -/
def buildParams {E V : Type} : List (String × Except E V) → Except E (List (String × V))
  | [] => .ok []
  | (_, .error e) :: _ => .error e
  | (k, .ok v) :: rest =>
    match buildParams rest with
    | .error e => .error e
    | .ok m => .ok ((k, v) :: m)

/-- Builder finalization `ServiceOptsBuilder::build`. -/
def ServiceOptsBuilder.build {E V A : Type} (b : ServiceOptsBuilder E V A) :
    Except E (ServiceOpts E V A) :=
  match buildParams b.params with
  | .error e => .error e
  | .ok m => .ok ⟨b.auth, m⟩

/-! ### Streaming operation façade (`Exec::create_and_start`,
`Images::build`)

Both functions compute everything argument-dependent (serialized
payload / endpoint / tarball) eagerly, then build a lazy stream from an
`async move` block via `try_flatten_stream`: a future erring yields the
error as the stream's single item.  The HTTP engine is an abstract
record of functions; the requests it would receive are returned
alongside the items so that "no request is issued" is provable. -/

/-- Model of the repository's error type (the variants the façade can
yield). -/
inductive DErr
  | serde (msg : String)
  | io (msg : String)
  | daemon (status : Nat) (msg : String)
  | protocol (e : PErr)
deriving DecidableEq

/-- An HTTP request issued by `create_and_start`. -/
inductive ExecReq (B : Type)
  | postJson (ep : String) (body : B)
  | streamPost (ep : String)

/-- Abstract HTTP engine for `create_and_start`: the create response
and the raw chunk stream of the start request. -/
structure ExecHttp (B : Type) where
  postJson : String → B → Except DErr String
  streamPost : String → List (List Nat)

/-- Decoder `tty::decode` applied to a chunk stream, as stream items: the
decoded frames followed by the terminal protocol error, if any. -/
def demuxItems (chunks : List (List Nat)) : List (Except DErr Frame) :=
  (demuxChunks chunks).1.map Except.ok ++
    (match (demuxChunks chunks).2 with
     | some e => [Except.error (DErr.protocol e)]
     | none => [])

/-- Model of `Exec::create_and_start`, given the eagerly computed
`body_result = opts.serialize()` and
`container_endpoint = format!("/containers/{}/exec", ..)`: the stream's
items paired with the HTTP requests issued. -/
def create_and_start {B : Type} (http : ExecHttp B) (body_result : Except DErr B)
    (container_endpoint : String) : List (Except DErr Frame) × List (ExecReq B) :=
  match body_result with
  | .error e => ([.error e], [])
  | .ok body =>
    match http.postJson container_endpoint body with
    | .error e => ([.error e], [.postJson container_endpoint body])
    | .ok exec_id =>
      (demuxItems (http.streamPost ("/exec/" ++ exec_id ++ "/start")),
        [.postJson container_endpoint body,
          .streamPost ("/exec/" ++ exec_id ++ "/start")])

/-- The exec endpoint for a container id. -/
def containerExecEp (container_id : String) : String :=
  "/containers/" ++ container_id ++ "/exec"

/-- Eager body result `opts.serialize()` of the exec options: string, bool and
string-list values always serialize, so the outcome is always `ok` the
body map. -/
def execSerializeResult (opts : ExecContainerOpts) :
    Except DErr (List (String × JVal)) :=
  .ok opts.serialize

/-- Model of `Exec::create_and_start` from its actual arguments. -/
def createAndStartOpts (http : ExecHttp (List (String × JVal)))
    (opts : ExecContainerOpts) (container_id : String) :
    List (Except DErr Frame) × List (ExecReq (List (String × JVal))) :=
  create_and_start http (execSerializeResult opts) (containerExecEp container_id)

/-- An HTTP request issued by `Images::build`. -/
inductive BuildReq
  | streamPostTar (ep : String) (bytes : List Nat)
deriving DecidableEq

/-- Abstract HTTP engine for `Images::build`: the decoded-item stream
of the tar-upload request. -/
structure BuildHttp (A : Type) where
  streamPostTar : String → List Nat → List (Except DErr A)

/-- Model of `Images::build`, given the eagerly computed endpoint,
`tar_result = tarball::dir(&mut bytes, &opts.path)` and the bytes it
wrote. -/
def imagesBuild {A : Type} (http : BuildHttp A) (ep : String)
    (tar_result : Except DErr Unit) (bytes : List Nat) :
    List (Except DErr A) × List BuildReq :=
  match tar_result with
  | .error e => ([.error e], [])
  | .ok _ => (http.streamPostTar ep bytes, [.streamPostTar ep bytes])

/-- Model of `Images::build` from the build path, with `tarball::dir` abstract
(returning its result and the bytes written into the buffer). -/
def imagesBuildPath {A : Type} (http : BuildHttp A)
    (tarball_dir : String → Except DErr Unit × List Nat) (ep : String) (path : String) :
    List (Except DErr A) × List BuildReq :=
  imagesBuild http ep (tarball_dir path).1 (tarball_dir path).2

/-- A concrete HTTP engine for the C5 witness. -/
def httpConst : ExecHttp (List (String × JVal)) :=
  ⟨fun _ _ => Except.ok "id7", fun _ => [[1, 0, 0, 0, 0, 0, 0, 0]]⟩

/-- A concrete build HTTP engine for the C5 witness. -/
def buildHttpConst : BuildHttp Nat := ⟨fun _ _ => [Except.ok 7]⟩

/-- A concrete tarball function for the C5 witness. -/
def tarConst : String → Except DErr Unit × List Nat := fun _ => (Except.ok (), [9, 9])

/-! ### Theorems -/

theorem splitLines_nil : splitLines [] = ([], []) := rfl

/-- A terminated line (no terminator inside `l`) splits off in front. -/
theorem splitLines_terminated (l rest : List Nat) (hl : (10 : Nat) ∉ l) :
    splitLines (l ++ 10 :: rest) =
      ((l ++ [10]) :: (splitLines rest).1, (splitLines rest).2) := by
  induction l with
  | nil => simp [splitLines]
  | cons b l ih =>
    have hb : b ≠ 10 := fun h => hl (by simp [h])
    have hl' : (10 : Nat) ∉ l := fun h => hl (List.mem_cons_of_mem _ h)
    simp only [List.cons_append, splitLines, List.append_eq, if_neg hb, ih hl']

/-- Bytes containing no terminator produce no line. -/
theorem splitLines_no_terminator (t : List Nat) (ht : (10 : Nat) ∉ t) :
    splitLines t = ([], t) := by
  induction t with
  | nil => rfl
  | cons b t ih =>
    have hb : b ≠ 10 := fun h => ht (by simp [h])
    have ht' : (10 : Nat) ∉ t := fun h => ht (List.mem_cons_of_mem _ h)
    simp only [splitLines, if_neg hb, ih ht']

/-- Appending terminator-free bytes never adds a line. -/
theorem splitLines_append_no_terminator (pre t : List Nat) (ht : (10 : Nat) ∉ t) :
    (splitLines (pre ++ t)).1 = (splitLines pre).1 := by
  induction pre with
  | nil => simp [splitLines_no_terminator t ht, splitLines]
  | cons b pre ih =>
    by_cases hb : b = 10
    · subst hb
      simp [splitLines, ih]
    · simp only [List.cons_append, splitLines, List.append_eq, if_neg hb]
      have h := ih
      cases hp : splitLines (pre ++ t) with
      | mk ls1 t1 =>
      cases hq : splitLines pre with
      | mk ls2 t2 =>
      rw [hp, hq] at h
      simp only at h
      subst h
      cases ls1 <;> simp

/-- Decoding the newline-join of encoded records recovers the records. -/
theorem splitLines_nlJoin_map {T : Type} (dec : List Nat → Option T) (enc : T → List Nat)
    (rs : List T) (henc : ∀ r ∈ rs, (10 : Nat) ∉ enc r)
    (hdec : ∀ r ∈ rs, dec (enc r ++ [10]) = some r) :
    (splitLines (nlJoin (rs.map enc))).1.map (lineToItem dec) = rs.map Except.ok := by
  induction rs with
  | nil => simp [nlJoin, splitLines]
  | cons r rs ih =>
    have h1 : (10 : Nat) ∉ enc r := henc r (List.mem_cons_self r rs)
    have hstep : nlJoin ((r :: rs).map enc) = enc r ++ 10 :: nlJoin (rs.map enc) := by
      simp [nlJoin]
    rw [hstep, splitLines_terminated _ _ h1]
    have h2 : dec (enc r ++ [10]) = some r := hdec r (List.mem_cons_self r rs)
    simp only [List.map_cons, lineToItem, h2]
    rw [ih (fun r hr => henc r (List.mem_cons_of_mem _ hr))
        (fun r hr => hdec r (List.mem_cons_of_mem _ hr))]

/-- Claim C1 counterexample: on the chunk stream `"B\nA\n"` with a record
decoder that fails on line `B\n` and succeeds on line `A\n`, the
`Docker::events` pipeline emits the malformed-record error for the first
line and then still emits the record of the following valid line, so a
record is emitted after the malformed line, contradicting the claim
that no further records are emitted. -/
theorem events_failFast_counterexample :
    eventsItems decA [[66, 10, 65, 10]] = [.error .malformedRecord, .ok 0] ∧
    Except.ok 0 ∈ (eventsItems decA [[66, 10, 65, 10]]).drop 1 := by
  constructor
  · rfl
  · decide

/-- Claim C1 (amended): a line on which the record decoder fails yields
one malformed-record error item, but the session is not terminated:
the remaining bytes after that line are decoded as usual and their
valid lines are still emitted as records. -/
theorem events_malformed_not_failFast {T : Type} (dec : List Nat → Option T)
    (chunks : List (List Nat)) (lm rest : List Nat)
    (hlm : (10 : Nat) ∉ lm) (hdec : dec (lm ++ [10]) = none)
    (hjoin : chunks.flatten = lm ++ 10 :: rest) :
    eventsItems dec chunks = .error .malformedRecord :: eventsItems dec [rest] := by
  unfold eventsItems
  rw [hjoin, splitLines_terminated lm rest hlm]
  simp [lineToItem, hdec]

/-- Witness for `events_malformed_not_failFast` at the concrete input of
the counterexample. -/
theorem events_malformed_not_failFast_witness :
    eventsItems decA [[66, 10, 65, 10]] =
      .error .malformedRecord :: eventsItems decA [[65, 10]] :=
  events_malformed_not_failFast decA [[66, 10, 65, 10]] [66] [65, 10]
    (by decide) (by decide) (by decide)

/-- Claim C2: for every finite list of encodable records, serializing
each record, joining them as newline-terminated lines, and re-splitting
the bytes into chunks at arbitrary boundaries, the `Docker::events`
pipeline emits exactly the original records, in order, regardless of
where the chunk boundaries fall.  (Encodings contain no terminator byte
and the record decoder accepts each encoded line, as `serde_json` does
for its own compact output with a trailing newline.) -/
theorem events_roundTrip {T : Type} (dec : List Nat → Option T) (enc : T → List Nat)
    (rs : List T) (chunks : List (List Nat))
    (henc : ∀ r ∈ rs, (10 : Nat) ∉ enc r)
    (hdec : ∀ r ∈ rs, dec (enc r ++ [10]) = some r)
    (hjoin : chunks.flatten = nlJoin (rs.map enc)) :
    eventsItems dec chunks = rs.map Except.ok := by
  unfold eventsItems
  rw [hjoin]
  exact splitLines_nlJoin_map dec enc rs henc hdec

/-- Witness for `events_roundTrip`: three records, re-split at boundaries
unrelated to the record boundaries. -/
theorem events_roundTrip_witness :
    eventsItems dec0 [[65], [65, 10], [], [10, 65, 10]] =
      [Except.ok 2, Except.ok 0, Except.ok 1] :=
  events_roundTrip dec0 enc0 [2, 0, 1] [[65], [65, 10], [], [10, 65, 10]]
    (by decide) (by decide) (by decide)

/-- Claim C3 counterexample: the input stream consisting of the single
chunk `A` ends with a non-empty unterminated trailing buffer that is
decodable on its own, yet the `Docker::events` pipeline emits nothing:
the vendored `LinesCodec` has no end-of-stream handling, so the trailing
buffer is dropped rather than emitted as a final record. -/
theorem events_trailing_counterexample :
    decB [65] = some 0 ∧ eventsItems decB [[65]] = [] := by
  decide

/-- Claim C3 (amended): at end of stream a non-empty unterminated
trailing buffer is silently discarded, whether or not it is decodable
on its own; the pipeline's output is exactly that of the terminated
terminated part of the stream. -/
theorem events_trailing_discarded {T : Type} (dec : List Nat → Option T)
    (chunks : List (List Nat)) (pre trail : List Nat)
    (htrail : (10 : Nat) ∉ trail) (hjoin : chunks.flatten = pre ++ trail) :
    eventsItems dec chunks = eventsItems dec [pre] := by
  unfold eventsItems
  rw [hjoin]
  simp [splitLines_append_no_terminator pre trail htrail]

/-- Witness for `events_trailing_discarded` on a concrete stream with a
trailing unterminated byte. -/
theorem events_trailing_discarded_witness :
    eventsItems decA [[65, 10, 65]] = eventsItems decA [[65, 10]] :=
  events_trailing_discarded decA [[65, 10, 65]] [65, 10] [65] (by decide) (by decide)

theorem runBufF_succ_header (fuel : Nat) (buf : List Nat) :
    runBufF (fuel + 1) .awaitingHeader buf =
      if 8 ≤ buf.length then
        match tagKind (buf.headD 0) with
        | none => ⟨[], .awaitingHeader, buf, true⟩
        | some k => runBufF fuel (.awaitingPayload k (be32 ((buf.drop 4).take 4))) (buf.drop 8)
      else ⟨[], .awaitingHeader, buf, false⟩ := rfl

theorem runBufF_succ_payload (fuel : Nat) (k : StreamKind) (len : Nat) (buf : List Nat) :
    runBufF (fuel + 1) (.awaitingPayload k len) buf =
      if len ≤ buf.length then
        let r := runBufF fuel .awaitingHeader (buf.drop len)
        ⟨⟨k, buf.take len⟩ :: r.frames, r.mode, r.buf, r.fatal⟩
      else ⟨[], .awaitingPayload k len, buf, false⟩ := rfl

/-- The run is independent of the fuel once the fuel is sufficient. -/
theorem runBufF_stable (f : Nat) : ∀ (f' : Nat) (mode : DemuxMode) (buf : List Nat),
    needFuel mode buf ≤ f → needFuel mode buf ≤ f' →
    runBufF f mode buf = runBufF f' mode buf := by
  induction f with
  | zero =>
    intro f' mode buf h _
    exact absurd h (by cases mode <;> simp [needFuel])
  | succ f ih =>
    intro f' mode buf h h'
    cases f' with
    | zero => exact absurd h' (by cases mode <;> simp [needFuel])
    | succ f' =>
      cases mode with
      | awaitingHeader =>
        simp only [runBufF]
        by_cases h8 : 8 ≤ buf.length
        · simp only [if_pos h8]
          cases htag : tagKind (buf.headD 0) with
          | none => rfl
          | some k =>
            simp only [needFuel] at h h'
            have hb : needFuel (.awaitingPayload k (be32 ((buf.drop 4).take 4))) (buf.drop 8)
                ≤ f := by
              simp only [needFuel, List.length_drop]
              omega
            have hb' : needFuel (.awaitingPayload k (be32 ((buf.drop 4).take 4))) (buf.drop 8)
                ≤ f' := by
              simp only [needFuel, List.length_drop]
              omega
            exact ih f' _ _ hb hb'
        · simp only [if_neg h8]
      | awaitingPayload k len =>
        simp only [runBufF]
        by_cases hlen : len ≤ buf.length
        · simp only [if_pos hlen]
          simp only [needFuel] at h h'
          have hb : needFuel .awaitingHeader (buf.drop len) ≤ f := by
            simp only [needFuel, List.length_drop]
            omega
          have hb' : needFuel .awaitingHeader (buf.drop len) ≤ f' := by
            simp only [needFuel, List.length_drop]
            omega
          rw [ih f' _ _ hb hb']
        · simp only [if_neg hlen]

/-- Unfolding `runBuf` in the `awaitingHeader` state. -/
theorem runBuf_header (buf : List Nat) :
    runBuf .awaitingHeader buf =
      if 8 ≤ buf.length then
        match tagKind (buf.headD 0) with
        | none => ⟨[], .awaitingHeader, buf, true⟩
        | some k => runBuf (.awaitingPayload k (be32 ((buf.drop 4).take 4))) (buf.drop 8)
      else ⟨[], .awaitingHeader, buf, false⟩ := by
  show runBufF (buf.length + 1 + 1) .awaitingHeader buf = _
  rw [runBufF_succ_header]
  by_cases h8 : 8 ≤ buf.length
  · simp only [if_pos h8]
    cases htag : tagKind (buf.headD 0) with
    | none => rfl
    | some k =>
      exact runBufF_stable (buf.length + 1) ((buf.drop 8).length + 2)
        (.awaitingPayload k (be32 ((buf.drop 4).take 4))) (buf.drop 8)
        (by simp only [needFuel, List.length_drop]; omega)
        (by simp only [needFuel, List.length_drop]; omega)
  · simp only [if_neg h8]

/-- Unfolding `runBuf` in the `awaitingPayload` state. -/
theorem runBuf_payload (k : StreamKind) (len : Nat) (buf : List Nat) :
    runBuf (.awaitingPayload k len) buf =
      if len ≤ buf.length then
        let r := runBuf .awaitingHeader (buf.drop len)
        ⟨⟨k, buf.take len⟩ :: r.frames, r.mode, r.buf, r.fatal⟩
      else ⟨[], .awaitingPayload k len, buf, false⟩ := by
  show runBufF (buf.length + 1 + 1) (.awaitingPayload k len) buf = _
  rw [runBufF_succ_payload]
  by_cases hlen : len ≤ buf.length
  · simp only [if_pos hlen]
    have := runBufF_stable (buf.length + 1) ((buf.drop len).length + 2)
      .awaitingHeader (buf.drop len)
      (by simp only [needFuel, List.length_drop]; omega)
      (by simp only [needFuel, List.length_drop]; omega)
    rw [this]
    rfl
  · simp only [if_neg hlen]

/-- Composition: running the machine over `buf ++ extra` is running it
over `buf` and continuing the reached state with `extra`.  This is what
makes the demultiplexer insensitive to chunk boundaries. -/
theorem runBuf_append_fueled (n : Nat) : ∀ (mode : DemuxMode) (buf extra : List Nat),
    needFuel mode buf ≤ n →
    runBuf mode (buf ++ extra) = glueRun (runBuf mode buf) extra := by
  induction n with
  | zero =>
    intro mode buf extra h
    exact absurd h (by cases mode <;> simp [needFuel])
  | succ n ih =>
    intro mode buf extra h
    cases mode with
    | awaitingHeader =>
      by_cases h8 : 8 ≤ buf.length
      · have h8' : 8 ≤ (buf ++ extra).length := by
          simp only [List.length_append]; omega
        have hhead : (buf ++ extra).headD 0 = buf.headD 0 := by
          cases buf with
          | nil => simp at h8
          | cons b bs => rfl
        have hdt : ((buf ++ extra).drop 4).take 4 = (buf.drop 4).take 4 := by
          rw [List.drop_append_of_le_length (by omega),
            List.take_append_of_le_length (by simp only [List.length_drop]; omega)]
        have hd8 : (buf ++ extra).drop 8 = buf.drop 8 ++ extra :=
          List.drop_append_of_le_length h8
        rw [runBuf_header (buf ++ extra), if_pos h8', hhead, hdt, hd8,
          runBuf_header buf, if_pos h8]
        cases htag : tagKind (buf.headD 0) with
        | none => simp [glueRun]
        | some k =>
          exact ih (.awaitingPayload k (be32 ((buf.drop 4).take 4))) (buf.drop 8) extra
            (by simp only [needFuel, List.length_drop] at h ⊢; omega)
      · rw [runBuf_header buf, if_neg h8]
        simp [glueRun]
    | awaitingPayload k len =>
      by_cases hlen : len ≤ buf.length
      · have hlen' : len ≤ (buf ++ extra).length := by
          simp only [List.length_append]; omega
        have htake : (buf ++ extra).take len = buf.take len :=
          List.take_append_of_le_length hlen
        have hdrop : (buf ++ extra).drop len = buf.drop len ++ extra :=
          List.drop_append_of_le_length hlen
        rw [runBuf_payload k len (buf ++ extra), if_pos hlen', htake, hdrop,
          runBuf_payload k len buf, if_pos hlen]
        rw [ih .awaitingHeader (buf.drop len) extra
          (by simp only [needFuel, List.length_drop] at h ⊢; omega)]
        cases hf : (runBuf .awaitingHeader (buf.drop len)).fatal <;>
          simp [glueRun, hf]
      · rw [runBuf_payload k len buf, if_neg hlen]
        simp [glueRun]

/-- Lemma `runBuf_append_fueled` with the fuel instantiated. -/
theorem runBuf_append (mode : DemuxMode) (buf extra : List Nat) :
    runBuf mode (buf ++ extra) = glueRun (runBuf mode buf) extra :=
  runBuf_append_fueled (needFuel mode buf) mode buf extra le_rfl

theorem glueRun_glueRun (r : DemuxRun) (a b : List Nat) :
    glueRun (glueRun r a) b = glueRun r (a ++ b) := by
  cases hf : r.fatal with
  | true => simp [glueRun, hf, List.append_assoc]
  | false =>
    simp only [glueRun, hf, Bool.false_eq_true, if_false]
    rw [show r.buf ++ (a ++ b) = (r.buf ++ a) ++ b from (List.append_assoc _ _ _).symm,
      runBuf_append r.mode (r.buf ++ a) b]
    cases hf2 : (runBuf r.mode (r.buf ++ a)).fatal <;>
      simp [glueRun, hf2, List.append_assoc]

theorem foldl_feedChunk_glue (chunks : List (List Nat)) : ∀ (s : DemuxRun) (a : List Nat),
    chunks.foldl feedChunk (glueRun s a) = glueRun s (a ++ chunks.flatten) := by
  induction chunks with
  | nil => intro s a; simp
  | cons c cs ih =>
    intro s a
    simp only [List.foldl_cons, List.flatten_cons]
    rw [show feedChunk (glueRun s a) c = glueRun (glueRun s a) c from rfl,
      glueRun_glueRun, ih, List.append_assoc]

/-- The chunked session computes the same outcome as a single run over
the concatenation: chunk boundaries are semantically transparent. -/
theorem demuxChunks_eq (chunks : List (List Nat)) :
    demuxChunks chunks = demuxBytes chunks.flatten := by
  unfold demuxChunks demuxBytes
  have h0 : (initDemux : DemuxRun) = glueRun initDemux [] := rfl
  rw [h0, foldl_feedChunk_glue]
  simp [glueRun, initDemux]

theorem tagKind_tagByte (k : StreamKind) : tagKind (tagByte k) = some k := by
  cases k <;> rfl

theorem be32_encLen (n : Nat) (h : n < 2 ^ 32) : be32 (encLen n) = n := by
  simp only [be32, encLen, List.foldl_cons, List.foldl_nil]
  omega

/-- Consuming an encoded header moves the machine into the payload
state for the declared kind and length. -/
theorem runBuf_encHeader (k : StreamKind) (len : Nat) (q : List Nat) (h : len < 2 ^ 32) :
    runBuf .awaitingHeader (encHeader k len ++ q) = runBuf (.awaitingPayload k len) q := by
  rw [runBuf_header]
  rw [show (encHeader k len ++ q).length = q.length + 8 from rfl]
  rw [if_pos (by omega)]
  rw [show (encHeader k len ++ q).headD 0 = tagByte k from rfl]
  rw [tagKind_tagByte]
  rw [show ((encHeader k len ++ q).drop 4).take 4 = encLen len from rfl]
  rw [be32_encLen len h]
  rw [show (encHeader k len ++ q).drop 8 = q from rfl]

/-- Consuming one encoded frame emits exactly that frame. -/
theorem runBuf_encodeFrame (f : Frame) (rest : List Nat) (h : f.payload.length < 2 ^ 32) :
    runBuf .awaitingHeader (encodeFrame f ++ rest) =
      ⟨f :: (runBuf .awaitingHeader rest).frames,
        (runBuf .awaitingHeader rest).mode,
        (runBuf .awaitingHeader rest).buf,
        (runBuf .awaitingHeader rest).fatal⟩ := by
  obtain ⟨k, p⟩ := f
  rw [show encodeFrame ⟨k, p⟩ ++ rest = encHeader k p.length ++ (p ++ rest) from by
    simp [encodeFrame, List.append_assoc]]
  rw [runBuf_encHeader k p.length (p ++ rest) h, runBuf_payload]
  rw [if_pos (by simp only [List.length_append]; omega)]
  rw [List.take_left, List.drop_left]

/-- Consuming an encoded frame sequence emits exactly those frames. -/
theorem runBuf_encodeFrames (fs : List Frame) (rest : List Nat)
    (h : ∀ f ∈ fs, f.payload.length < 2 ^ 32) :
    runBuf .awaitingHeader (encodeFrames fs ++ rest) =
      ⟨fs ++ (runBuf .awaitingHeader rest).frames,
        (runBuf .awaitingHeader rest).mode,
        (runBuf .awaitingHeader rest).buf,
        (runBuf .awaitingHeader rest).fatal⟩ := by
  induction fs with
  | nil => simp [encodeFrames]
  | cons f fs ih =>
    simp only [encodeFrames, List.map_cons, List.flatten_cons, List.append_assoc]
    rw [runBuf_encodeFrame f _ (h f (List.mem_cons_self f fs))]
    have := ih (fun g hg => h g (List.mem_cons_of_mem _ hg))
    simp only [encodeFrames] at this
    rw [this]
    simp

/-- Claim C6: encoding any frame sequence into the 8-byte-header
multiplex wire format and re-splitting the bytes into chunks at
arbitrary boundaries (including one-byte chunks), the demultiplexer
decodes exactly the original frames, in order, and the session
completes without error.  Each decoded frame is one of the originals,
so its payload length equals the length declared in its header by
construction of the encoding.  (Payload lengths must fit the 4-byte
length field.) -/
theorem demux_roundTrip (F : List Frame) (chunks : List (List Nat))
    (hlen : ∀ f ∈ F, f.payload.length < 2 ^ 32)
    (hjoin : chunks.flatten = encodeFrames F) :
    demuxChunks chunks = (F, none) := by
  rw [demuxChunks_eq, hjoin]
  unfold demuxBytes
  have h := runBuf_encodeFrames F [] hlen
  rw [List.append_nil] at h
  rw [h]
  have h0 : runBuf .awaitingHeader [] = ⟨[], .awaitingHeader, [], false⟩ := rfl
  rw [h0]
  simp [finalizeRun]

/-- Witness for `demux_roundTrip`: two frames fed one byte at a time. -/
theorem demux_roundTrip_witness :
    demuxChunks
        [[1], [0], [0], [0], [0], [0], [0], [2], [104], [105],
          [2], [0], [0], [0], [0], [0], [0], [1], [33]] =
      ([⟨.stdout, [104, 105]⟩, ⟨.stderr, [33]⟩], none) :=
  demux_roundTrip [⟨.stdout, [104, 105]⟩, ⟨.stderr, [33]⟩]
    [[1], [0], [0], [0], [0], [0], [0], [2], [104], [105],
      [2], [0], [0], [0], [0], [0], [0], [1], [33]]
    (by decide) (by decide)

/-- Claim C7: a multiplexed byte sequence that ends mid-header (fewer
than 8 trailing bytes after the complete frames) or mid-payload (a
trailing header whose declared length exceeds the bytes that follow)
fails the session with a truncated-frame error and emits only the
complete frames, never an incomplete one; and the session completes
without error only when it ends in the `awaitingHeader` state with an
empty carry-over buffer. -/
theorem demux_truncation (F : List Frame) (chunks : List (List Nat)) (p : List Nat)
    (hlen : ∀ f ∈ F, f.payload.length < 2 ^ 32)
    (hjoin : chunks.flatten = encodeFrames F ++ p) :
    (p ≠ [] → p.length < 8 → demuxChunks chunks = (F, some .truncatedFrame))
    ∧ (∀ (k : StreamKind) (len : Nat) (q : List Nat), len < 2 ^ 32 →
        p = encHeader k len ++ q → q.length < len →
        demuxChunks chunks = (F, some .truncatedFrame))
    ∧ ((demuxChunks chunks).2 = none →
        (chunks.foldl feedChunk initDemux).mode = .awaitingHeader ∧
        (chunks.foldl feedChunk initDemux).buf = [] ∧
        (chunks.foldl feedChunk initDemux).fatal = false) := by
  have hbase : demuxChunks chunks =
      finalizeRun ⟨F ++ (runBuf .awaitingHeader p).frames,
        (runBuf .awaitingHeader p).mode,
        (runBuf .awaitingHeader p).buf,
        (runBuf .awaitingHeader p).fatal⟩ := by
    rw [demuxChunks_eq, hjoin]
    unfold demuxBytes
    rw [runBuf_encodeFrames F p hlen]
  refine ⟨?_, ?_, ?_⟩
  · intro hne h8
    have hp : runBuf .awaitingHeader p = ⟨[], .awaitingHeader, p, false⟩ := by
      rw [runBuf_header, if_neg (by omega)]
    rw [hbase, hp]
    cases p with
    | nil => exact absurd rfl hne
    | cons b bs => simp [finalizeRun]
  · intro k len q hlen2 hp hql
    subst hp
    have hq : runBuf .awaitingHeader (encHeader k len ++ q) =
        ⟨[], .awaitingPayload k len, q, false⟩ := by
      rw [runBuf_encHeader k len q hlen2, runBuf_payload, if_neg (by omega)]
    rw [hbase, hq]
    simp [finalizeRun]
  · intro hnone
    unfold demuxChunks at hnone
    cases hfat : (chunks.foldl feedChunk initDemux).fatal with
    | true => simp [finalizeRun, hfat] at hnone
    | false =>
      cases hm : (chunks.foldl feedChunk initDemux).mode with
      | awaitingPayload k len => simp [finalizeRun, hfat, hm] at hnone
      | awaitingHeader =>
        cases hb : (chunks.foldl feedChunk initDemux).buf with
        | cons x xs => simp [finalizeRun, hfat, hm, hb] at hnone
        | nil => exact ⟨rfl, rfl, rfl⟩

/-- Witness for `demux_truncation`: a stream ending mid-header and a
stream ending mid-payload, both failing as truncated frames. -/
theorem demux_truncation_witness :
    demuxChunks [[1, 0, 0]] = ([], some .truncatedFrame) ∧
    demuxChunks [[1], [0, 0, 0], [0, 0, 0, 5], [65]] = ([], some .truncatedFrame) := by
  constructor
  · exact (demux_truncation [] [[1, 0, 0]] [1, 0, 0] (by decide) (by decide)).1
      (by decide) (by decide)
  · exact (demux_truncation [] [[1], [0, 0, 0], [0, 0, 0, 5], [65]]
      (encHeader .stdout 5 ++ [65]) (by decide) (by decide)).2.1
      .stdout 5 [65] (by decide) rfl (by decide)

theorem alookup_insertKV_self {A : Type} (m : List (String × A)) (k : String) (v : A) :
    alookup (insertKV m k v) k = some v := by
  induction m with
  | nil => simp [insertKV, alookup]
  | cons kv rest ih =>
    obtain ⟨k', v'⟩ := kv
    by_cases h : k' = k
    · simp [insertKV, alookup, h]
    · simp [insertKV, alookup, h, ih]

theorem alookup_insertKV_ne {A : Type} (m : List (String × A)) (k k' : String) (v : A)
    (h : k' ≠ k) : alookup (insertKV m k v) k' = alookup m k' := by
  have hne : ¬(k = k') := fun hh => h hh.symm
  induction m with
  | nil => simp only [insertKV, alookup, if_neg hne]
  | cons kv rest ih =>
    obtain ⟨k'', v''⟩ := kv
    by_cases h2 : k'' = k
    · have hne2 : ¬(k'' = k') := fun hh => hne (h2 ▸ hh)
      simp only [insertKV, if_pos h2, alookup, if_neg hne, if_neg hne2]
    · simp only [insertKV, if_neg h2, alookup]
      by_cases h3 : k'' = k'
      · simp only [if_pos h3]
      · simp only [if_neg h3, ih]

theorem mem_insertKV {A : Type} (m : List (String × A)) (k : String) (v : A)
    (kv : String × A) (h : kv ∈ insertKV m k v) : kv = (k, v) ∨ kv ∈ m := by
  induction m with
  | nil => simp [insertKV] at h; simp [h]
  | cons p rest ih =>
    obtain ⟨k', v'⟩ := p
    by_cases h2 : k' = k
    · rw [insertKV, if_pos h2] at h
      rcases List.mem_cons.mp h with h3 | h3
      · exact Or.inl h3
      · exact Or.inr (List.mem_cons_of_mem _ h3)
    · rw [insertKV, if_neg h2] at h
      rcases List.mem_cons.mp h with h3 | h3
      · exact Or.inr (by simp [h3])
      · rcases ih h3 with h4 | h4
        · exact Or.inl h4
        · exact Or.inr (List.mem_cons_of_mem _ h4)

theorem alookup_eq_none_of_not_mem_keys {A : Type} (m : List (String × A)) (k : String)
    (h : k ∉ m.map Prod.fst) : alookup m k = none := by
  induction m with
  | nil => rfl
  | cons p rest ih =>
    obtain ⟨k', v'⟩ := p
    simp only [List.map_cons, List.mem_cons] at h
    push_neg at h
    rw [alookup, if_neg (fun hh => h.1 hh.symm)]  -- hmm h.1 : k ≠ k'
    exact ih h.2

theorem runResizeOps_key_invariant (ops : List ResizeOp) :
    ∀ (b : ExecResizeOptsBuilder), (∀ kv ∈ b.params, kv.1 = "Name") →
      ∀ kv ∈ (ops.foldl ExecResizeOptsBuilder.apply b).params, kv.1 = "Name" := by
  induction ops with
  | nil => intro b hb; exact hb
  | cons op ops ih =>
    intro b hb
    refine ih (b.apply op) ?_
    intro kv hkv
    cases op with
    | height n =>
      rcases mem_insertKV b.params "Name" n kv hkv with h | h
      · rw [h]
      · exact hb kv h
    | width n =>
      rcases mem_insertKV b.params "Name" n kv hkv with h | h
      · rw [h]
      · exact hb kv h

/-- Claim C8: `ExecResizeOptsBuilder::height` and `::width` both store
their value under the single JSON key `"Name"`, so setting both keeps
only the value set last (in either order), and the serialized body of
any options built through the API contains only the `"Name"` key —
never `"Height"` or `"Width"`. -/
theorem execResize_single_name_key (b : ExecResizeOptsBuilder) (h w : Nat)
    (ops : List ResizeOp) :
    alookup ((b.height h).width w).params "Name" = some w
    ∧ alookup ((b.width w).height h).params "Name" = some h
    ∧ (∀ kv ∈ ((runResizeOps ops).build).serialize, kv.1 = "Name") := by
  refine ⟨?_, ?_, ?_⟩
  · exact alookup_insertKV_self _ "Name" w
  · exact alookup_insertKV_self _ "Name" h
  · intro kv hkv
    exact runResizeOps_key_invariant ops ExecResizeOptsBuilder.new
      (by intro kv hkv2; simp [ExecResizeOptsBuilder.new] at hkv2) kv hkv

/-- Witness for `execResize_single_name_key` at concrete values. -/
theorem execResize_single_name_key_witness :
    alookup ((ExecResizeOptsBuilder.new.height 2).width 3).params "Name" = some 3
    ∧ alookup ((ExecResizeOptsBuilder.new.width 3).height 2).params "Name" = some 2
    ∧ ("Name", 7).1 = "Name" :=
  ⟨(execResize_single_name_key ExecResizeOptsBuilder.new 2 3 [.height 4, .width 7]).1,
    (execResize_single_name_key ExecResizeOptsBuilder.new 2 3 [.height 4, .width 7]).2.1,
    (execResize_single_name_key ExecResizeOptsBuilder.new 2 3 [.height 4, .width 7]).2.2
      ("Name", 7) (by decide)⟩

theorem alookup_pushParam (m : List (String × List String)) (k : String) (x : String) :
    alookup (pushParam m k x) k =
      match alookup m k with
      | some v => some (v ++ [x])
      | none => some [x] := by
  induction m with
  | nil => simp [pushParam, alookup]
  | cons kv rest ih =>
    obtain ⟨k', v⟩ := kv
    by_cases h : k' = k
    · simp [pushParam, alookup, h]
    · simp only [pushParam, if_neg h, alookup, if_neg h, ih]

theorem alookup_pushParam_ne (m : List (String × List String)) (k k' : String) (x : String)
    (h : k' ≠ k) : alookup (pushParam m k x) k' = alookup m k' := by
  have hne : ¬(k = k') := fun hh => h hh.symm
  induction m with
  | nil => simp only [pushParam, alookup, if_neg hne]
  | cons kv rest ih =>
    obtain ⟨k'', v⟩ := kv
    by_cases h2 : k'' = k
    · have hne2 : ¬(k'' = k') := fun hh => hne (h2 ▸ hh)
      simp only [pushParam, if_pos h2, alookup, if_neg hne2]
    · simp only [pushParam, if_neg h2, alookup]
      by_cases h3 : k'' = k'
      · simp only [if_pos h3]
      · simp only [if_neg h3, ih]

/-- Pushing a whole list appends it to the entry at `k`. -/
theorem alookup_foldl_pushParam (xs : List String) :
    ∀ (m : List (String × List String)) (k : String),
      alookup (xs.foldl (fun m c => pushParam m k c) m) k =
        match alookup m k with
        | some v => some (v ++ xs)
        | none => if xs = [] then none else some xs := by
  induction xs with
  | nil =>
    intro m k
    cases h : alookup m k <;> simp [h]
  | cons x xs ih =>
    intro m k
    simp only [List.foldl_cons]
    rw [ih (pushParam m k x) k, alookup_pushParam]
    cases h : alookup m k with
    | some v => simp [List.append_assoc]
    | none => simp

theorem alookup_foldl_pushParam_ne (xs : List String) :
    ∀ (m : List (String × List String)) (k k' : String), k' ≠ k →
      alookup (xs.foldl (fun m c => pushParam m k c) m) k' = alookup m k' := by
  induction xs with
  | nil => intro m k k' _; rfl
  | cons x xs ih =>
    intro m k k' h
    simp only [List.foldl_cons]
    rw [ih (pushParam m k x) k k' h, alookup_pushParam_ne m k k' x h]

/-- Inserting entries whose keys all differ from `k` leaves the lookup
at `k` unchanged. -/
theorem alookup_foldl_insert_not_mem {A B : Type} (L : List (String × A)) (f : A → B) :
    ∀ (start : List (String × B)) (k : String), (∀ kv ∈ L, kv.1 ≠ k) →
      alookup (L.foldl (fun acc kv => insertKV acc kv.1 (f kv.2)) start) k =
        alookup start k := by
  induction L with
  | nil => intro start k _; rfl
  | cons p rest ih =>
    intro start k h
    simp only [List.foldl_cons]
    rw [ih _ k (fun kv hkv => h kv (List.mem_cons_of_mem _ hkv)),
      alookup_insertKV_ne start p.1 k (f p.2)
        (fun hh => h p (List.mem_cons_self p rest) hh.symm)]

/-- Inserting an association list with distinct keys over `start`
realizes its lookup, falling back to `start` for absent keys. -/
theorem alookup_foldl_insert_nodup {A B : Type} (L : List (String × A)) (f : A → B) :
    ∀ (start : List (String × B)) (k : String), (L.map Prod.fst).Nodup →
      alookup (L.foldl (fun acc kv => insertKV acc kv.1 (f kv.2)) start) k =
        match alookup L k with
        | some v => some (f v)
        | none => alookup start k := by
  induction L with
  | nil => intro start k _; rfl
  | cons p rest ih =>
    intro start k hnd
    obtain ⟨k1, v1⟩ := p
    simp only [List.map_cons, List.nodup_cons] at hnd
    simp only [List.foldl_cons]
    rw [ih _ k hnd.2]
    by_cases hk : k1 = k
    · subst hk
      rw [alookup_eq_none_of_not_mem_keys rest k1 hnd.1]
      simp only [alookup, if_pos rfl]
      exact alookup_insertKV_self start k1 (f v1)
    · cases hr : alookup rest k with
      | some v => simp only [alookup, if_neg hk, hr]
      | none =>
        simp only [alookup, if_neg hk, hr]
        exact alookup_insertKV_ne start k1 k (f v1) (fun hh => hk hh.symm)

theorem mem_keys_pushParam (m : List (String × List String)) (k x : String) (k'' : String)
    (h : k'' ∈ (pushParam m k x).map Prod.fst) : k'' ∈ m.map Prod.fst ∨ k'' = k := by
  induction m with
  | nil => simp [pushParam] at h; simp [h]
  | cons p rest ih =>
    obtain ⟨k', v⟩ := p
    by_cases h2 : k' = k
    · rw [pushParam, if_pos h2] at h
      simp only [List.map_cons, List.mem_cons] at h ⊢
      tauto
    · rw [pushParam, if_neg h2] at h
      simp only [List.map_cons, List.mem_cons] at h ⊢
      rcases h with h | h
      · tauto
      · rcases ih h with h3 | h3 <;> tauto

theorem pushParam_keys_nodup (m : List (String × List String)) (k x : String)
    (h : (m.map Prod.fst).Nodup) : ((pushParam m k x).map Prod.fst).Nodup := by
  induction m with
  | nil => simp [pushParam]
  | cons p rest ih =>
    obtain ⟨k', v⟩ := p
    simp only [List.map_cons, List.nodup_cons] at h
    by_cases h2 : k' = k
    · rw [pushParam, if_pos h2]
      simp only [List.map_cons, List.nodup_cons]
      exact h
    · rw [pushParam, if_neg h2]
      simp only [List.map_cons, List.nodup_cons]
      refine ⟨?_, ih h.2⟩
      intro hmem
      rcases mem_keys_pushParam rest k x k' hmem with h3 | h3
      · exact h.1 h3
      · exact h2 h3

theorem foldl_pushParam_keys_nodup (xs : List String) :
    ∀ (m : List (String × List String)) (k : String),
      (m.map Prod.fst).Nodup →
      ((xs.foldl (fun m c => pushParam m k c) m).map Prod.fst).Nodup := by
  induction xs with
  | nil => intro m k h; exact h
  | cons x xs ih =>
    intro m k h
    simp only [List.foldl_cons]
    exact ih (pushParam m k x) k (pushParam_keys_nodup m k x h)

/-- Claim C9 (amended): `cmd` and `env` append element by element
rather than replacing, so `b.cmd(xs).cmd(ys)` extends `b`'s existing
`Cmd` entry with `xs ++ ys` — the serialized `Cmd` field equals the
prior value followed by `xs` then `ys` (it equals `xs ++ ys` itself
only when `b` had no prior `Cmd` entries) — while the boolean and
string setters (`attach_stdout`, `attach_stderr`, `tty`, `privileged`,
`user`, `working_dir`, `detach_keys`) are last-write-wins for their
key. -/
theorem execOpts_cmd_append (b : ExecContainerOptsBuilder) (xs ys : List String)
    (c0 : List String) (v1 v2 : Bool) (s1 s2 : String) :
    (alookup b.params "Cmd" = some c0 →
      alookup ((b.cmd xs).cmd ys).params "Cmd" = some (c0 ++ (xs ++ ys)))
    ∧ (alookup b.params "Cmd" = some c0 →
        (b.params.map Prod.fst).Nodup →
        (∀ kv ∈ b.params_str, kv.1 ≠ "Cmd") →
        (∀ kv ∈ b.params_bool, kv.1 ≠ "Cmd") →
        alookup (((b.cmd xs).cmd ys).build.serialize) "Cmd" =
          some (.arr (c0 ++ (xs ++ ys))))
    ∧ (alookup b.params "Env" = some c0 →
        alookup ((b.env xs).env ys).params "Env" = some (c0 ++ (xs ++ ys)))
    ∧ alookup ((b.attach_stdout v1).attach_stdout v2).params_bool "AttachStdout" = some v2
    ∧ alookup ((b.attach_stderr v1).attach_stderr v2).params_bool "AttachStderr" = some v2
    ∧ alookup ((b.tty v1).tty v2).params_bool "Tty" = some v2
    ∧ alookup ((b.privileged v1).privileged v2).params_bool "Privileged" = some v2
    ∧ alookup ((b.user s1).user s2).params_str "User" = some s2
    ∧ alookup ((b.working_dir s1).working_dir s2).params_str "WorkingDir" = some s2
    ∧ alookup ((b.detach_keys s1).detach_keys s2).params_str "DetachKeys" = some s2 := by
  have hparams : ∀ (h : alookup b.params "Cmd" = some c0),
      alookup ((b.cmd xs).cmd ys).params "Cmd" = some (c0 ++ (xs ++ ys)) := by
    intro h
    show alookup (ys.foldl (fun m c => pushParam m "Cmd" c)
      (xs.foldl (fun m c => pushParam m "Cmd" c) b.params)) "Cmd" = _
    rw [alookup_foldl_pushParam ys _ "Cmd", alookup_foldl_pushParam xs _ "Cmd", h]
    simp [List.append_assoc]
  refine ⟨hparams, ?_, ?_, ?_, ?_, ?_, ?_, ?_, ?_, ?_⟩
  · intro h hnd hstr hbool
    show alookup (ExecContainerOpts.serialize
      ⟨((b.cmd xs).cmd ys).params, b.params_str, b.params_bool⟩) "Cmd" = _
    unfold ExecContainerOpts.serialize
    rw [alookup_foldl_insert_not_mem b.params_bool _ _ "Cmd" hbool,
      alookup_foldl_insert_not_mem b.params_str _ _ "Cmd" hstr,
      alookup_foldl_insert_nodup ((b.cmd xs).cmd ys).params _ [] "Cmd"
        (foldl_pushParam_keys_nodup ys _ "Cmd"
          (foldl_pushParam_keys_nodup xs b.params "Cmd" hnd)),
      hparams h]
  · intro h
    show alookup (ys.foldl (fun m e => pushParam m "Env" e)
      (xs.foldl (fun m e => pushParam m "Env" e) b.params)) "Env" = _
    rw [alookup_foldl_pushParam ys _ "Env", alookup_foldl_pushParam xs _ "Env", h]
    simp [List.append_assoc]
  · exact alookup_insertKV_self _ "AttachStdout" v2
  · exact alookup_insertKV_self _ "AttachStderr" v2
  · exact alookup_insertKV_self _ "Tty" v2
  · exact alookup_insertKV_self _ "Privileged" v2
  · exact alookup_insertKV_self _ "User" s2
  · exact alookup_insertKV_self _ "WorkingDir" s2
  · exact alookup_insertKV_self _ "DetachKeys" s2

/-- Claim C9 counterexample: for a builder that already holds a `Cmd`
entry `["z"]`, `b.cmd(["x"]).cmd(["y"])` serializes `Cmd` as
`["z","x","y"]`, not as the concatenation `["x","y"]` of the two
argument lists, refuting the claim for arbitrary builders `b`. -/
theorem execOpts_cmd_append_counterexample :
    alookup ((((ExecContainerOptsBuilder.default.cmd ["z"]).cmd ["x"]).cmd ["y"]).build.serialize)
        "Cmd" = some (JVal.arr ["z", "x", "y"])
    ∧ JVal.arr ["z", "x", "y"] ≠ JVal.arr ["x", "y"] := by
  decide

/-- Witness for `execOpts_cmd_append` on the counterexample's builder. -/
theorem execOpts_cmd_append_witness :
    alookup ((((ExecContainerOptsBuilder.default.cmd ["z"]).cmd ["x"]).cmd ["y"]).build.serialize)
        "Cmd" = some (JVal.arr (["z"] ++ (["x"] ++ ["y"]))) :=
  (execOpts_cmd_append (ExecContainerOptsBuilder.default.cmd ["z"]) ["x"] ["y"] ["z"]
    true true "a" "b").2.1 (by decide) (by decide) (by decide) (by decide)

/-- Claim C10: `ServiceOptsBuilder` defers serialization errors to
`build()`: every setter succeeds unconditionally, storing the
serialization outcome (shown here for `task_template`, which stores an
error outcome as-is); `build()` succeeds exactly when every stored
field value serialized successfully; and on success the resulting
params correspond key-by-key to the successfully serialized values of
the fields that were set. -/
theorem serviceOpts_build_defers {E V A : Type} (b : ServiceOptsBuilder E V A) :
    ((∃ o, b.build = .ok o) ↔ ∀ kv ∈ b.params, ∃ v, kv.2 = .ok v)
    ∧ (∀ o, b.build = .ok o →
        o.auth = b.auth ∧
        List.Forall₂ (fun (kv : String × Except E V) (kv' : String × V) =>
          kv.1 = kv'.1 ∧ kv.2 = .ok kv'.2) b.params o.params)
    ∧ (∀ (e : E), (b.task_template (.error e)).params =
        insertKV b.params "TaskTemplate" (.error e)) := by
  have hbp : ∀ (l : List (String × Except E V)),
      (∃ m, buildParams l = .ok m) ↔ ∀ kv ∈ l, ∃ v, kv.2 = .ok v := by
    intro l
    induction l with
    | nil => simp [buildParams]
    | cons p rest ih =>
      obtain ⟨k, v⟩ := p
      cases v with
      | error e =>
        simp only [buildParams]
        constructor
        · rintro ⟨m, hm⟩; cases hm
        · intro h
          rcases h (k, .error e) (List.mem_cons_self _ _) with ⟨v, hv⟩
          cases hv
      | ok v =>
        simp only [buildParams]
        constructor
        · rintro ⟨m, hm⟩
          intro kv hkv
          rcases List.mem_cons.mp hkv with h | h
          · exact ⟨v, by rw [h]⟩
          · cases hb2 : buildParams rest with
            | error e => rw [hb2] at hm; cases hm
            | ok m2 => exact (ih.mp ⟨m2, hb2⟩) kv h
        · intro h
          rcases ih.mpr (fun kv hkv => h kv (List.mem_cons_of_mem _ hkv)) with ⟨m2, hm2⟩
          exact ⟨(k, v) :: m2, by rw [hm2]⟩
  have hfa : ∀ (l : List (String × Except E V)) (m : List (String × V)),
      buildParams l = .ok m →
      List.Forall₂ (fun (kv : String × Except E V) (kv' : String × V) =>
        kv.1 = kv'.1 ∧ kv.2 = .ok kv'.2) l m := by
    intro l
    induction l with
    | nil =>
      intro m hm
      cases hm
      exact List.Forall₂.nil
    | cons p rest ih =>
      intro m hm
      obtain ⟨k, v⟩ := p
      cases v with
      | error e => cases hm
      | ok v =>
        simp only [buildParams] at hm
        cases hb2 : buildParams rest with
        | error e => rw [hb2] at hm; cases hm
        | ok m2 =>
          rw [hb2] at hm
          cases hm
          exact List.Forall₂.cons ⟨rfl, rfl⟩ (ih m2 hb2)
  refine ⟨?_, ?_, fun e => rfl⟩
  · constructor
    · rintro ⟨o, ho⟩
      unfold ServiceOptsBuilder.build at ho
      cases hb2 : buildParams b.params with
      | error e => rw [hb2] at ho; cases ho
      | ok m => exact (hbp b.params).mp ⟨m, hb2⟩
    · intro h
      rcases (hbp b.params).mpr h with ⟨m, hm⟩
      exact ⟨⟨b.auth, m⟩, by unfold ServiceOptsBuilder.build; rw [hm]⟩
  · intro o ho
    unfold ServiceOptsBuilder.build at ho
    cases hb2 : buildParams b.params with
    | error e => rw [hb2] at ho; cases ho
    | ok m =>
      rw [hb2] at ho
      cases ho
      exact ⟨rfl, hfa b.params m hb2⟩

/-- Witness for `serviceOpts_build_defers` on a concrete builder with
one successfully serialized field. -/
theorem serviceOpts_build_defers_witness :
    (⟨none, [("Name", 3)]⟩ : ServiceOpts String Nat Unit).auth = none
    ∧ List.Forall₂ (fun (kv : String × Except String Nat) (kv' : String × Nat) =>
        kv.1 = kv'.1 ∧ kv.2 = .ok kv'.2)
        [("Name", Except.ok 3)] [("Name", 3)] :=
  (serviceOpts_build_defers
    (⟨none, [("Name", Except.ok 3)]⟩ : ServiceOptsBuilder String Nat Unit)).2.1
    ⟨none, [("Name", 3)]⟩ rfl

/-- Claim C4: when the eagerly computed serialization result of
`Exec::create_and_start`, or the tarball result of `Images::build`, is
an error, the returned stream yields exactly that error as its single
terminal item and then ends, and no HTTP request is issued. -/
theorem facade_error_terminal :
    (∀ (B : Type) (http : ExecHttp B) (e : DErr) (ep : String),
        create_and_start http (.error e) ep = ([.error e], []))
    ∧ (∀ (A : Type) (http : BuildHttp A) (ep : String) (e : DErr) (bytes : List Nat),
        imagesBuild http ep (.error e) bytes = ([.error e], [])) :=
  ⟨fun _ _ _ _ => rfl, fun _ _ _ _ _ => rfl⟩

/-- Claim C5: all argument-dependent work of `Exec::create_and_start`
(serializing the options, computing the container endpoint) and of
`Images::build` (the endpoint and the tarball) happens before the
stream is built, so the stream's behaviour — items and requests — is a
function of the serialized body and endpoint alone: calls whose
arguments serialize to equal bodies and equal endpoints behave
identically. -/
theorem facade_function_of_body_endpoint :
    (∀ (http : ExecHttp (List (String × JVal))) (o1 o2 : ExecContainerOpts)
        (c1 c2 : String),
        o1.serialize = o2.serialize → containerExecEp c1 = containerExecEp c2 →
        createAndStartOpts http o1 c1 = createAndStartOpts http o2 c2)
    ∧ (∀ (A : Type) (http : BuildHttp A)
        (tarball_dir : String → Except DErr Unit × List Nat)
        (ep1 ep2 path1 path2 : String),
        ep1 = ep2 → tarball_dir path1 = tarball_dir path2 →
        imagesBuildPath http tarball_dir ep1 path1 =
          imagesBuildPath http tarball_dir ep2 path2) := by
  constructor
  · intro http o1 o2 c1 c2 hs he
    unfold createAndStartOpts execSerializeResult
    rw [hs, he]
  · intro A http td ep1 ep2 p1 p2 he ht
    unfold imagesBuildPath
    rw [he, ht]

/-- Witness for `facade_function_of_body_endpoint`: two distinct
builder expressions with equal serialized bodies, and two build calls
with equal endpoints and tar results, behave identically. -/
theorem facade_function_of_body_endpoint_witness :
    createAndStartOpts httpConst
        (((ExecContainerOptsBuilder.default.tty true).tty true).build) "c7"
      = createAndStartOpts httpConst ((ExecContainerOptsBuilder.default.tty true).build) "c7"
    ∧ imagesBuildPath buildHttpConst tarConst "/build" "p1"
      = imagesBuildPath buildHttpConst tarConst "/build" "p2" :=
  ⟨facade_function_of_body_endpoint.1 httpConst
      (((ExecContainerOptsBuilder.default.tty true).tty true).build)
      ((ExecContainerOptsBuilder.default.tty true).build) "c7" "c7" (by decide) rfl,
    facade_function_of_body_endpoint.2 Nat buildHttpConst tarConst
      "/build" "/build" "p1" "p2" rfl rfl⟩

end DockerApi
